import Mathlib

/-!
Shallow embedding of the share-ledger library (Rust `Portfolio` in
`src/lib.rs`).  Rust's `HashMap` is modelled as an association list
without relying on iteration order: the code only ever looks keys up,
inserts through `entry(..).or_default()`, writes through the entry, and
asks whether the map is empty, and all of those are faithfully captured
by `mapGet` / `mapInsert` / `List.isEmpty` below.  `u32` share counts
are modelled as `Nat` with the overflow bound `U32_MAX` made explicit:
Rust's `checked_add` fails exactly when the sum exceeds `U32_MAX`, and
`checked_sub` fails exactly when the subtrahend exceeds the minuend.
The struct is named `Ledger` (the specification's name for the
aggregate); its fields and methods keep the Rust names.
-/

/-- Largest value representable by a Rust `u32` share count. -/
def U32_MAX : Nat := 4294967295

/-- Rust enum `TransactionType` with variants `Purchase` and `Sell`. -/
inductive TransactionType where
  | Purchase : TransactionType
  | Sell : TransactionType
deriving DecidableEq, Repr

/-- Rust struct `PurchaseRecord { date, shares, transaction_type }`.
The `date` field holds the timestamp in milliseconds; the code always
stamps records with `fixed_date_time()`, i.e. `FIXED_EPOCH_TIME_MS = 0`. -/
structure PurchaseRecord where
  date : Int
  shares : Nat
  transaction_type : TransactionType
deriving DecidableEq, Repr

/-- Rust enum `PortfolioError`. -/
inductive PortfolioError where
  | ZeroShares : PortfolioError
  | InvalidSell : PortfolioError
  | NoSymbolHistory : PortfolioError
  | InvalidPurchase : PortfolioError
deriving DecidableEq, Repr

/-- Decidable equality for `Except` outcomes, so that concrete runs can
be checked by `decide`. -/
instance {ε α : Type} [DecidableEq ε] [DecidableEq α] :
    DecidableEq (Except ε α) := fun a b =>
  match a, b with
  | .ok x, .ok y =>
    if h : x = y then .isTrue (by rw [h])
    else .isFalse (by intro hh; cases hh; exact h rfl)
  | .error x, .error y =>
    if h : x = y then .isTrue (by rw [h])
    else .isFalse (by intro hh; cases hh; exact h rfl)
  | .ok _, .error _ => .isFalse (by intro hh; cases hh)
  | .error _, .ok _ => .isFalse (by intro hh; cases hh)

/-- Lookup in an association list, modelling `HashMap::get`. -/
def mapGet {α : Type} (m : List (String × α)) (k : String) : Option α :=
  match m with
  | [] => none
  | (k1, v) :: rest => if k1 = k then some v else mapGet rest k

/-- Insert-or-replace in an association list, modelling a write to a
`HashMap` entry (replace the value if the key is present, append the
binding otherwise). -/
def mapInsert {α : Type} (m : List (String × α)) (k : String) (v : α) :
    List (String × α) :=
  match m with
  | [] => [(k, v)]
  | (k1, v1) :: rest =>
    if k1 = k then (k, v) :: rest else (k1, v1) :: mapInsert rest k v

/-- Rust struct `Portfolio { holdings, purchase_records }`; named `Ledger`
here, after the specification's name for the aggregate. -/
structure Ledger where
  holdings : List (String × Nat)
  purchase_records : List (String × List PurchaseRecord)
deriving DecidableEq, Repr

/-- `Portfolio::fixed_date_time()`: the fixed epoch instant, 0 ms. -/
def fixed_date_time : Int := 0

/-- `Portfolio::new()`. -/
def Ledger.new : Ledger := { holdings := [], purchase_records := [] }

/-- `Portfolio::is_empty()`. -/
def Ledger.is_empty (p : Ledger) : Bool := p.holdings.isEmpty

/-- `Portfolio::validate_share_count`. -/
def validate_share_count (shares : Nat) : Except PortfolioError Unit :=
  if shares = 0 then .error .ZeroShares else .ok ()

/-- `Portfolio::update_holdings`.  The Rust method first materialises the
entry via `entry(symbol).or_default()` (inserting a 0 count when the
symbol is absent) and only then performs the checked arithmetic, so on
a checked-arithmetic failure the inserted default entry remains: the
returned state carries that mutation.  Results are `(outcome, state)`
pairs because Rust mutates `self` in place. -/
def Ledger.update_holdings (p : Ledger) (symbol : String) (shares : Nat)
    (transaction_type : TransactionType) : Except PortfolioError Unit × Ledger :=
  let count := (mapGet p.holdings symbol).getD 0
  let entered : Ledger := { p with holdings := mapInsert p.holdings symbol count }
  match transaction_type with
  | .Purchase =>
    if count + shares ≤ U32_MAX then
      (.ok (), { entered with
        holdings := mapInsert entered.holdings symbol (count + shares) })
    else
      (.error .InvalidPurchase, entered)
  | .Sell =>
    if shares ≤ count then
      (.ok (), { entered with
        holdings := mapInsert entered.holdings symbol (count - shares) })
    else
      (.error .InvalidSell, entered)

/-- `Portfolio::update_purchase_records`: append one record to the
symbol's history, creating the history entry when absent. -/
def Ledger.update_purchase_records (p : Ledger) (symbol : String) (shares : Nat)
    (transaction_type : TransactionType) : Except PortfolioError Unit × Ledger :=
  let records := (mapGet p.purchase_records symbol).getD []
  let pushed := records ++ [{ date := fixed_date_time, shares := shares,
                              transaction_type := transaction_type }]
  (.ok (), { p with purchase_records := mapInsert p.purchase_records symbol pushed })

/-- `Portfolio::transact`: validate, update holdings, then append the
record; each `?` propagates the error and stops, keeping whatever state
mutations already happened. -/
def Ledger.transact (p : Ledger) (symbol : String) (shares : Nat)
    (transaction_type : TransactionType) : Except PortfolioError Unit × Ledger :=
  match validate_share_count shares with
  | .error e => (.error e, p)
  | .ok _ =>
    match p.update_holdings symbol shares transaction_type with
    | (.error e, p1) => (.error e, p1)
    | (.ok _, p1) => p1.update_purchase_records symbol shares transaction_type

/-- `Portfolio::purchase`. -/
def Ledger.purchase (p : Ledger) (symbol : String) (shares : Nat) :
    Except PortfolioError Unit × Ledger :=
  p.transact symbol shares .Purchase

/-- `Portfolio::sell`. -/
def Ledger.sell (p : Ledger) (symbol : String) (shares : Nat) :
    Except PortfolioError Unit × Ledger :=
  p.transact symbol shares .Sell

/-- `Portfolio::share_count`: current count, defaulting to 0. -/
def Ledger.share_count (p : Ledger) (symbol : String) : Nat :=
  (mapGet p.holdings symbol).getD 0

/-- `Portfolio::get_purchase_record`: the history for a symbol, or
`NoSymbolHistory` when the symbol has no history entry. -/
def Ledger.get_purchase_record (p : Ledger) (symbol : String) :
    Except PortfolioError (List PurchaseRecord) :=
  match mapGet p.purchase_records symbol with
  | some records => .ok records
  | none => .error .NoSymbolHistory

/-- One external mutating call to the ledger. -/
inductive Call where
  | purchase : String → Nat → Call
  | sell : String → Nat → Call
deriving DecidableEq, Repr

/-- The symbol a call acts on. -/
def Call.symbol : Call → String
  | .purchase s _ => s
  | .sell s _ => s

/-- The share amount a call carries. -/
def Call.shares : Call → Nat
  | .purchase _ n => n
  | .sell _ n => n

/-- The transaction type a call requests. -/
def Call.ttype : Call → TransactionType
  | .purchase _ _ => .Purchase
  | .sell _ _ => .Sell

/-- The record a call appends when it succeeds. -/
def Call.record (c : Call) : PurchaseRecord :=
  { date := fixed_date_time, shares := c.shares, transaction_type := c.ttype }

/-- Execute a call: dispatch to `purchase` or `sell`. -/
def Ledger.run_call (p : Ledger) (c : Call) : Except PortfolioError Unit × Ledger :=
  match c with
  | .purchase s n => p.purchase s n
  | .sell s n => p.sell s n

/-- State after a call. -/
def Ledger.applyCall (p : Ledger) (c : Call) : Ledger := (p.run_call c).2

/-- Outcome of a call. -/
def Ledger.callResult (p : Ledger) (c : Call) : Except PortfolioError Unit :=
  (p.run_call c).1

/-- Whether a call succeeds on a given state. -/
def Ledger.callOk (p : Ledger) (c : Call) : Bool :=
  match p.callResult c with
  | .ok _ => true
  | .error _ => false

/-- State after a whole sequence of calls. -/
def Ledger.applyCalls (p : Ledger) (cs : List Call) : Ledger :=
  cs.foldl Ledger.applyCall p

/-- The records the calls in `cs`, executed from `p`, append for symbol
`s`, in call order: one record per successful call on `s`. -/
def traceRecords : Ledger → List Call → String → List PurchaseRecord
  | _, [], _ => []
  | p, c :: cs, s =>
    (if c.symbol = s ∧ p.callOk c = true then [c.record] else [])
      ++ traceRecords (p.applyCall c) cs s

/-- Signed contribution of one record: `+shares` for a Purchase,
`-shares` for a Sell. -/
def recordNet (r : PurchaseRecord) : Int :=
  match r.transaction_type with
  | .Purchase => (r.shares : Int)
  | .Sell => -(r.shares : Int)

/-- Signed net of a list of records. -/
def netRecords (rs : List PurchaseRecord) : Int := (rs.map recordNet).sum

theorem mapGet_mapInsert_self {α : Type} (m : List (String × α)) (k : String)
    (v : α) : mapGet (mapInsert m k v) k = some v := by
  induction m with
  | nil => simp [mapInsert, mapGet]
  | cons hd tl ih =>
    obtain ⟨k1, v1⟩ := hd
    by_cases h : k1 = k
    · simp [mapInsert, mapGet, h]
    · simp [mapInsert, mapGet, h, ih]

theorem mapGet_mapInsert_ne {α : Type} (m : List (String × α)) (k t : String)
    (v : α) (h : k ≠ t) : mapGet (mapInsert m k v) t = mapGet m t := by
  induction m with
  | nil => simp [mapInsert, mapGet, h]
  | cons hd tl ih =>
    obtain ⟨k1, v1⟩ := hd
    by_cases h1 : k1 = k
    · subst h1; simp [mapInsert, mapGet, h]
    · by_cases h2 : k1 = t <;> simp [mapInsert, mapGet, h1, h2, ih, Ne.symm h]

theorem mapInsert_ne_nil {α : Type} (m : List (String × α)) (k : String)
    (v : α) : mapInsert m k v ≠ [] := by
  cases m with
  | nil => simp [mapInsert]
  | cons hd tl =>
    obtain ⟨k1, v1⟩ := hd
    by_cases h : k1 = k <;> simp [mapInsert, h]

theorem mapInsert_mapInsert {α : Type} (m : List (String × α)) (k : String)
    (v w : α) : mapInsert (mapInsert m k v) k w = mapInsert m k w := by
  induction m with
  | nil => simp [mapInsert]
  | cons hd tl ih =>
    obtain ⟨k1, v1⟩ := hd
    by_cases h : k1 = k
    · simp [mapInsert, h]
    · simp [mapInsert, h, ih]

theorem mapGet_mapInsert_getD (m : List (String × Nat)) (k t : String) :
    (mapGet (mapInsert m k ((mapGet m k).getD 0)) t).getD 0 =
      (mapGet m t).getD 0 := by
  by_cases h : k = t
  · subst h; rw [mapGet_mapInsert_self]; rfl
  · rw [mapGet_mapInsert_ne m k t _ h]

theorem transact_zero (p : Ledger) (s : String) (tt : TransactionType) :
    p.transact s 0 tt = (.error .ZeroShares, p) := by
  simp [Ledger.transact, validate_share_count]

theorem transact_purchase_ok (p : Ledger) (s : String) (n : Nat)
    (hn : n ≠ 0) (hovf : p.share_count s + n ≤ U32_MAX) :
    p.transact s n .Purchase =
      (.ok (), { holdings := mapInsert p.holdings s (p.share_count s + n),
                 purchase_records := mapInsert p.purchase_records s
                   ((mapGet p.purchase_records s).getD [] ++
                     [{ date := fixed_date_time, shares := n,
                        transaction_type := .Purchase }]) }) := by
  have hovf2 : (mapGet p.holdings s).getD 0 + n ≤ U32_MAX := hovf
  simp [Ledger.transact, validate_share_count, hn, Ledger.update_holdings,
    Ledger.update_purchase_records, hovf2, mapInsert_mapInsert, Ledger.share_count]

theorem transact_purchase_overflow (p : Ledger) (s : String) (n : Nat)
    (hn : n ≠ 0) (hovf : U32_MAX < p.share_count s + n) :
    p.transact s n .Purchase =
      (.error .InvalidPurchase,
        { p with holdings := mapInsert p.holdings s (p.share_count s) }) := by
  have hovf2 : ¬((mapGet p.holdings s).getD 0 + n ≤ U32_MAX) := Nat.not_le.mpr hovf
  simp [Ledger.transact, validate_share_count, hn, Ledger.update_holdings,
    hovf2, Ledger.share_count]

theorem transact_sell_ok (p : Ledger) (s : String) (n : Nat)
    (hn : n ≠ 0) (hle : n ≤ p.share_count s) :
    p.transact s n .Sell =
      (.ok (), { holdings := mapInsert p.holdings s (p.share_count s - n),
                 purchase_records := mapInsert p.purchase_records s
                   ((mapGet p.purchase_records s).getD [] ++
                     [{ date := fixed_date_time, shares := n,
                        transaction_type := .Sell }]) }) := by
  have hle2 : n ≤ (mapGet p.holdings s).getD 0 := hle
  simp [Ledger.transact, validate_share_count, hn, Ledger.update_holdings,
    Ledger.update_purchase_records, hle2, mapInsert_mapInsert, Ledger.share_count]

theorem transact_sell_fail (p : Ledger) (s : String) (n : Nat)
    (hn : n ≠ 0) (hgt : p.share_count s < n) :
    p.transact s n .Sell =
      (.error .InvalidSell,
        { p with holdings := mapInsert p.holdings s (p.share_count s) }) := by
  have hgt2 : ¬(n ≤ (mapGet p.holdings s).getD 0) := Nat.not_le.mpr hgt
  simp [Ledger.transact, validate_share_count, hn, Ledger.update_holdings,
    hgt2, Ledger.share_count]

theorem callOk_purchase_iff (p : Ledger) (s : String) (n : Nat) :
    p.callOk (.purchase s n) = true ↔ (n ≠ 0 ∧ p.share_count s + n ≤ U32_MAX) := by
  by_cases hn : n = 0
  · subst hn
    simp [Ledger.callOk, Ledger.callResult, Ledger.run_call, Ledger.purchase,
      transact_zero]
  · by_cases hovf : p.share_count s + n ≤ U32_MAX
    · simp [Ledger.callOk, Ledger.callResult, Ledger.run_call, Ledger.purchase,
        transact_purchase_ok p s n hn hovf, hn, hovf]
    · simp [Ledger.callOk, Ledger.callResult, Ledger.run_call, Ledger.purchase,
        transact_purchase_overflow p s n hn (Nat.not_le.mp hovf), hn, hovf]

theorem callOk_sell_iff (p : Ledger) (s : String) (n : Nat) :
    p.callOk (.sell s n) = true ↔ (n ≠ 0 ∧ n ≤ p.share_count s) := by
  by_cases hn : n = 0
  · subst hn
    simp [Ledger.callOk, Ledger.callResult, Ledger.run_call, Ledger.sell,
      transact_zero]
  · by_cases hle : n ≤ p.share_count s
    · simp [Ledger.callOk, Ledger.callResult, Ledger.run_call, Ledger.sell,
        transact_sell_ok p s n hn hle, hn, hle]
    · simp [Ledger.callOk, Ledger.callResult, Ledger.run_call, Ledger.sell,
        transact_sell_fail p s n hn (Nat.not_le.mp hle), hn, hle]

theorem applyCall_zero (p : Ledger) (c : Call) (h : c.shares = 0) :
    p.applyCall c = p := by
  cases c with
  | purchase s n =>
    simp only [Call.shares] at h
    subst h
    simp [Ledger.applyCall, Ledger.run_call, Ledger.purchase, transact_zero]
  | sell s n =>
    simp only [Call.shares] at h
    subst h
    simp [Ledger.applyCall, Ledger.run_call, Ledger.sell, transact_zero]

theorem applyCall_records_ok (p : Ledger) (c : Call)
    (hok : p.callOk c = true) :
    (p.applyCall c).purchase_records =
      mapInsert p.purchase_records c.symbol
        ((mapGet p.purchase_records c.symbol).getD [] ++ [c.record]) := by
  cases c with
  | purchase s n =>
    obtain ⟨hn, hovf⟩ := (callOk_purchase_iff p s n).mp hok
    simp [Ledger.applyCall, Ledger.run_call, Ledger.purchase,
      transact_purchase_ok p s n hn hovf, Call.symbol, Call.record, Call.shares,
      Call.ttype]
  | sell s n =>
    obtain ⟨hn, hle⟩ := (callOk_sell_iff p s n).mp hok
    simp [Ledger.applyCall, Ledger.run_call, Ledger.sell,
      transact_sell_ok p s n hn hle, Call.symbol, Call.record, Call.shares,
      Call.ttype]

theorem applyCall_records_fail (p : Ledger) (c : Call)
    (hok : p.callOk c = false) :
    (p.applyCall c).purchase_records = p.purchase_records := by
  cases c with
  | purchase s n =>
    by_cases hn : n = 0
    · subst hn
      simp [Ledger.applyCall, Ledger.run_call, Ledger.purchase, transact_zero]
    · by_cases hovf : p.share_count s + n ≤ U32_MAX
      · exact absurd ((callOk_purchase_iff p s n).mpr ⟨hn, hovf⟩)
          (by simp [hok])
      · simp [Ledger.applyCall, Ledger.run_call, Ledger.purchase,
          transact_purchase_overflow p s n hn (Nat.not_le.mp hovf)]
  | sell s n =>
    by_cases hn : n = 0
    · subst hn
      simp [Ledger.applyCall, Ledger.run_call, Ledger.sell, transact_zero]
    · by_cases hle : n ≤ p.share_count s
      · exact absurd ((callOk_sell_iff p s n).mpr ⟨hn, hle⟩) (by simp [hok])
      · simp [Ledger.applyCall, Ledger.run_call, Ledger.sell,
          transact_sell_fail p s n hn (Nat.not_le.mp hle)]

theorem applyCall_count_fail (p : Ledger) (c : Call)
    (hok : p.callOk c = false) (t : String) :
    (p.applyCall c).share_count t = p.share_count t := by
  cases c with
  | purchase s n =>
    by_cases hn : n = 0
    · subst hn
      simp [Ledger.applyCall, Ledger.run_call, Ledger.purchase, transact_zero]
    · by_cases hovf : p.share_count s + n ≤ U32_MAX
      · exact absurd ((callOk_purchase_iff p s n).mpr ⟨hn, hovf⟩)
          (by simp [hok])
      · simp [Ledger.applyCall, Ledger.run_call, Ledger.purchase,
          transact_purchase_overflow p s n hn (Nat.not_le.mp hovf),
          Ledger.share_count, mapGet_mapInsert_getD]
  | sell s n =>
    by_cases hn : n = 0
    · subst hn
      simp [Ledger.applyCall, Ledger.run_call, Ledger.sell, transact_zero]
    · by_cases hle : n ≤ p.share_count s
      · exact absurd ((callOk_sell_iff p s n).mpr ⟨hn, hle⟩) (by simp [hok])
      · simp [Ledger.applyCall, Ledger.run_call, Ledger.sell,
          transact_sell_fail p s n hn (Nat.not_le.mp hle),
          Ledger.share_count, mapGet_mapInsert_getD]

theorem applyCall_count_ne (p : Ledger) (c : Call) (t : String)
    (ht : c.symbol ≠ t) :
    (p.applyCall c).share_count t = p.share_count t := by
  by_cases hok : p.callOk c = true
  · cases c with
    | purchase s n =>
      simp only [Call.symbol] at ht
      obtain ⟨hn, hovf⟩ := (callOk_purchase_iff p s n).mp hok
      simp [Ledger.applyCall, Ledger.run_call, Ledger.purchase,
        transact_purchase_ok p s n hn hovf, Ledger.share_count,
        mapGet_mapInsert_ne _ _ _ _ ht]
    | sell s n =>
      simp only [Call.symbol] at ht
      obtain ⟨hn, hle⟩ := (callOk_sell_iff p s n).mp hok
      simp [Ledger.applyCall, Ledger.run_call, Ledger.sell,
        transact_sell_ok p s n hn hle, Ledger.share_count,
        mapGet_mapInsert_ne _ _ _ _ ht]
  · exact applyCall_count_fail p c (Bool.not_eq_true _ ▸ Bool.of_not_eq_true hok) t

theorem applyCall_count_ok_purchase (p : Ledger) (s : String) (n : Nat)
    (hok : p.callOk (.purchase s n) = true) :
    (p.applyCall (.purchase s n)).share_count s = p.share_count s + n := by
  obtain ⟨hn, hovf⟩ := (callOk_purchase_iff p s n).mp hok
  simp [Ledger.applyCall, Ledger.run_call, Ledger.purchase,
    transact_purchase_ok p s n hn hovf, Ledger.share_count,
    mapGet_mapInsert_self]

theorem applyCall_count_ok_sell (p : Ledger) (s : String) (n : Nat)
    (hok : p.callOk (.sell s n) = true) :
    n ≤ p.share_count s ∧
      (p.applyCall (.sell s n)).share_count s = p.share_count s - n := by
  obtain ⟨hn, hle⟩ := (callOk_sell_iff p s n).mp hok
  refine ⟨hle, ?_⟩
  simp [Ledger.applyCall, Ledger.run_call, Ledger.sell,
    transact_sell_ok p s n hn hle, Ledger.share_count, mapGet_mapInsert_self]

theorem applyCall_holdings_pos (p : Ledger) (c : Call) (h : c.shares ≠ 0) :
    (p.applyCall c).holdings ≠ [] := by
  cases c with
  | purchase s n =>
    simp only [Call.shares] at h
    by_cases hovf : p.share_count s + n ≤ U32_MAX
    · simp [Ledger.applyCall, Ledger.run_call, Ledger.purchase,
        transact_purchase_ok p s n h hovf, mapInsert_ne_nil]
    · simp [Ledger.applyCall, Ledger.run_call, Ledger.purchase,
        transact_purchase_overflow p s n h (Nat.not_le.mp hovf),
        mapInsert_ne_nil]
  | sell s n =>
    simp only [Call.shares] at h
    by_cases hle : n ≤ p.share_count s
    · simp [Ledger.applyCall, Ledger.run_call, Ledger.sell,
        transact_sell_ok p s n h hle, mapInsert_ne_nil]
    · simp [Ledger.applyCall, Ledger.run_call, Ledger.sell,
        transact_sell_fail p s n h (Nat.not_le.mp hle), mapInsert_ne_nil]

theorem applyCalls_nil (p : Ledger) : p.applyCalls [] = p := rfl

theorem applyCalls_cons (p : Ledger) (c : Call) (cs : List Call) :
    p.applyCalls (c :: cs) = (p.applyCall c).applyCalls cs := rfl

theorem applyCall_mapGet_records_ne (p : Ledger) (c : Call) (t : String)
    (ht : c.symbol ≠ t) :
    mapGet (p.applyCall c).purchase_records t = mapGet p.purchase_records t := by
  by_cases hok : p.callOk c = true
  · rw [applyCall_records_ok p c hok, mapGet_mapInsert_ne _ _ _ _ ht]
  · rw [applyCall_records_fail p c (Bool.of_not_eq_true hok)]

theorem netRecords_append (l : List PurchaseRecord) (r : PurchaseRecord) :
    netRecords (l ++ [r]) = netRecords l + recordNet r := by
  simp [netRecords]

theorem net_invariant (cs : List Call) : ∀ p : Ledger,
    (∀ t, (p.share_count t : Int) =
      netRecords ((mapGet p.purchase_records t).getD [])) →
    ∀ s, ((Ledger.applyCalls p cs).share_count s : Int) =
      netRecords ((mapGet (Ledger.applyCalls p cs).purchase_records s).getD []) := by
  induction cs with
  | nil => intro p h s; exact h s
  | cons c cs ih =>
    intro p h s
    rw [applyCalls_cons]
    refine ih (p.applyCall c) ?_ s
    intro t
    by_cases hok : p.callOk c = true
    · by_cases ht : c.symbol = t
      · subst ht
        rw [applyCall_records_ok p c hok, mapGet_mapInsert_self]
        cases c with
        | purchase s1 n =>
          simp only [Call.symbol]
          rw [applyCall_count_ok_purchase p s1 n hok]
          simp only [Option.getD_some]
          rw [netRecords_append, ← h]
          simp [Call.record, recordNet, Call.ttype, Call.shares, Call.symbol]
        | sell s1 n =>
          obtain ⟨hle, hcount⟩ := applyCall_count_ok_sell p s1 n hok
          simp only [Call.symbol]
          rw [hcount]
          simp only [Option.getD_some]
          rw [netRecords_append, ← h]
          simp only [Call.record, recordNet, Call.ttype, Call.shares, Call.symbol]
          omega
      · rw [applyCall_count_ne p c t ht, applyCall_mapGet_records_ne p c t ht]
        exact h t
    · rw [applyCall_count_fail p c (Bool.of_not_eq_true hok) t,
        applyCall_records_fail p c (Bool.of_not_eq_true hok)]
      exact h t

theorem applyCalls_records_getD (cs : List Call) : ∀ (p : Ledger) (s : String),
    (mapGet (Ledger.applyCalls p cs).purchase_records s).getD [] =
      (mapGet p.purchase_records s).getD [] ++ traceRecords p cs s := by
  induction cs with
  | nil => intro p s; simp [applyCalls_nil, traceRecords]
  | cons c cs ih =>
    intro p s
    rw [applyCalls_cons, ih]
    by_cases h1 : c.symbol = s
    · by_cases h2 : p.callOk c = true
      · subst h1
        rw [traceRecords, applyCall_records_ok p c h2, mapGet_mapInsert_self]
        simp [h2, List.append_assoc]
      · have h2f : p.callOk c = false := Bool.of_not_eq_true h2
        rw [traceRecords, applyCall_records_fail p c h2f]
        simp [h2f]
    · rw [traceRecords, applyCall_mapGet_records_ne p c s h1]
      simp [h1]

theorem applyCalls_records_none (cs : List Call) : ∀ (p : Ledger) (s : String),
    (mapGet (Ledger.applyCalls p cs).purchase_records s = none ↔
      (mapGet p.purchase_records s = none ∧ traceRecords p cs s = [])) := by
  induction cs with
  | nil => intro p s; simp [applyCalls_nil, traceRecords]
  | cons c cs ih =>
    intro p s
    rw [applyCalls_cons, ih]
    by_cases h1 : c.symbol = s
    · by_cases h2 : p.callOk c = true
      · subst h1
        rw [traceRecords, applyCall_records_ok p c h2, mapGet_mapInsert_self]
        simp [h2]
      · have h2f : p.callOk c = false := Bool.of_not_eq_true h2
        rw [traceRecords, applyCall_records_fail p c h2f]
        simp [h2f]
    · rw [traceRecords, applyCall_mapGet_records_ne p c s h1]
      simp [h1]

theorem applyCalls_holdings_nil_iff (cs : List Call) : ∀ p : Ledger,
    ((Ledger.applyCalls p cs).holdings = [] ↔
      (p.holdings = [] ∧ ∀ c ∈ cs, c.shares = 0)) := by
  induction cs with
  | nil => intro p; simp [applyCalls_nil]
  | cons c cs ih =>
    intro p
    rw [applyCalls_cons, ih]
    by_cases h : c.shares = 0
    · rw [applyCall_zero p c h]
      simp [List.forall_mem_cons, h]
    · have hne := applyCall_holdings_pos p c h
      simp [List.forall_mem_cons, h, hne]

theorem applyCalls_count_untouched (cs : List Call) : ∀ (p : Ledger) (s : String),
    (∀ c ∈ cs, c.symbol ≠ s) →
    (Ledger.applyCalls p cs).share_count s = p.share_count s := by
  induction cs with
  | nil => intro p s _; rfl
  | cons c cs ih =>
    intro p s h
    rw [applyCalls_cons, ih _ s (fun d hd => h d (List.mem_cons_of_mem c hd)),
      applyCall_count_ne p c s (h c (List.mem_cons_self c cs))]

theorem shares_zero_of_zeroShares (p : Ledger) (c : Call)
    (h : p.callResult c = .error .ZeroShares) : c.shares = 0 := by
  by_contra hn
  cases c with
  | purchase s n =>
    simp only [Call.shares] at hn
    by_cases hovf : p.share_count s + n ≤ U32_MAX
    · simp [Ledger.callResult, Ledger.run_call, Ledger.purchase,
        transact_purchase_ok p s n hn hovf] at h
    · simp [Ledger.callResult, Ledger.run_call, Ledger.purchase,
        transact_purchase_overflow p s n hn (Nat.not_le.mp hovf)] at h
  | sell s n =>
    simp only [Call.shares] at hn
    by_cases hle : n ≤ p.share_count s
    · simp [Ledger.callResult, Ledger.run_call, Ledger.sell,
        transact_sell_ok p s n hn hle] at h
    · simp [Ledger.callResult, Ledger.run_call, Ledger.sell,
        transact_sell_fail p s n hn (Nat.not_le.mp hle)] at h

/-- C1: For every ledger state reachable from a fresh ledger by any sequence
of purchase and sell calls, and every symbol, the current share count equals
the signed net of the symbol's history records taken in order: each Purchase
record contributes `+shares` and each Sell record contributes `-shares`. -/
theorem C1_share_count_eq_history_net (cs : List Call) (s : String) :
    (((Ledger.new.applyCalls cs).share_count s : Int)) =
      netRecords ((mapGet (Ledger.new.applyCalls cs).purchase_records s).getD []) :=
  net_invariant cs Ledger.new
    (fun t => by simp [Ledger.new, Ledger.share_count, mapGet, netRecords]) s

/-- C2 counterexample: on a fresh ledger, `sell` of 1 share of an untouched
symbol fails with InvalidSell, yet the holdings map is not left as it was:
the call materialises a zero-count entry for the symbol. -/
theorem C2_counterexample :
    (Ledger.new.sell "IBM" 1).1 = .error .InvalidSell ∧
      (Ledger.new.sell "IBM" 1).2.holdings ≠ Ledger.new.holdings := by
  decide

/-- C2 (amended): when purchase or sell fails (ZeroShares, InvalidSell, or
InvalidPurchase), every symbol's share count and the entire history map are
left exactly as before the call, and a ZeroShares failure leaves the whole
state untouched; an InvalidSell or InvalidPurchase failure, however, may
insert a zero-count holdings entry for the requested symbol. -/
theorem C2_failed_call_preserves_observables (p : Ledger) (c : Call)
    (e : PortfolioError) (h : p.callResult c = .error e) :
    (∀ t, (p.applyCall c).share_count t = p.share_count t) ∧
    (p.applyCall c).purchase_records = p.purchase_records ∧
    (e = .ZeroShares → p.applyCall c = p) := by
  have hok : p.callOk c = false := by simp [Ledger.callOk, h]
  refine ⟨applyCall_count_fail p c hok, applyCall_records_fail p c hok, ?_⟩
  intro he
  subst he
  exact applyCall_zero p c (shares_zero_of_zeroShares p c h)

/-- C2 witness: the amended statement applied to a failed sell on a fresh
ledger. -/
theorem C2_witness :
    (Ledger.new.applyCall (Call.sell "IBM" 1)).share_count "IBM" =
      Ledger.new.share_count "IBM" ∧
    (Ledger.new.applyCall (Call.sell "IBM" 1)).purchase_records =
      Ledger.new.purchase_records := by
  have h := C2_failed_call_preserves_observables Ledger.new (Call.sell "IBM" 1)
    .InvalidSell (by decide)
  exact ⟨h.1 "IBM", h.2.1⟩

/-- C3: purchase fails with ZeroShares on a zero amount and leaves the state
unchanged; otherwise it fails with InvalidPurchase when the new count would
exceed the u32 range; otherwise it succeeds, sets the symbol's holdings entry
to `current + n`, and appends a Purchase record with the fixed timestamp to
the symbol's history, creating the history entry if absent. -/
theorem C3_purchase_contract (p : Ledger) (s : String) (n : Nat)
    (hu : n ≤ U32_MAX) :
    (n = 0 → p.purchase s n = (.error .ZeroShares, p)) ∧
    (n ≠ 0 → U32_MAX < p.share_count s + n →
      (p.purchase s n).1 = .error .InvalidPurchase) ∧
    (n ≠ 0 → p.share_count s + n ≤ U32_MAX →
      (p.purchase s n).1 = .ok () ∧
      mapGet (p.purchase s n).2.holdings s = some (p.share_count s + n) ∧
      mapGet (p.purchase s n).2.purchase_records s =
        some ((mapGet p.purchase_records s).getD [] ++
          [{ date := fixed_date_time, shares := n,
             transaction_type := .Purchase }])) := by
  refine ⟨?_, ?_, ?_⟩
  · intro h0
    subst h0
    exact transact_zero p s .Purchase
  · intro hn hovf
    rw [show p.purchase s n = p.transact s n .Purchase from rfl,
      transact_purchase_overflow p s n hn hovf]
  · intro hn hovf
    rw [show p.purchase s n = p.transact s n .Purchase from rfl,
      transact_purchase_ok p s n hn hovf]
    exact ⟨rfl, by rw [mapGet_mapInsert_self], by rw [mapGet_mapInsert_self]⟩

/-- C3 witness: the success branch of the purchase contract on a fresh
ledger. -/
theorem C3_witness :
    (Ledger.new.purchase "IBM" 5).1 = .ok () ∧
    mapGet (Ledger.new.purchase "IBM" 5).2.holdings "IBM" = some 5 ∧
    mapGet (Ledger.new.purchase "IBM" 5).2.purchase_records "IBM" =
      some [{ date := 0, shares := 5, transaction_type := .Purchase }] := by
  have h := (C3_purchase_contract Ledger.new "IBM" 5 (by decide)).2.2
    (by decide) (by decide)
  exact ⟨h.1, h.2.1, h.2.2⟩

/-- C4: sell fails with ZeroShares on a zero amount and leaves the state
unchanged; otherwise it fails with InvalidSell when the amount exceeds the
current count (0 for a never-transacted symbol, so a positive sell on an
untouched symbol yields InvalidSell, not NoSymbolHistory); otherwise it
succeeds, sets the symbol's holdings entry to `current - n`, and appends a
Sell record with the fixed timestamp to the symbol's history. -/
theorem C4_sell_contract (p : Ledger) (s : String) (n : Nat)
    (hu : n ≤ U32_MAX) :
    (n = 0 → p.sell s n = (.error .ZeroShares, p)) ∧
    (n ≠ 0 → p.share_count s < n → (p.sell s n).1 = .error .InvalidSell) ∧
    (n ≠ 0 → n ≤ p.share_count s →
      (p.sell s n).1 = .ok () ∧
      mapGet (p.sell s n).2.holdings s = some (p.share_count s - n) ∧
      mapGet (p.sell s n).2.purchase_records s =
        some ((mapGet p.purchase_records s).getD [] ++
          [{ date := fixed_date_time, shares := n,
             transaction_type := .Sell }])) := by
  refine ⟨?_, ?_, ?_⟩
  · intro h0
    subst h0
    exact transact_zero p s .Sell
  · intro hn hgt
    rw [show p.sell s n = p.transact s n .Sell from rfl,
      transact_sell_fail p s n hn hgt]
  · intro hn hle
    rw [show p.sell s n = p.transact s n .Sell from rfl,
      transact_sell_ok p s n hn hle]
    exact ⟨rfl, by rw [mapGet_mapInsert_self], by rw [mapGet_mapInsert_self]⟩

/-- C4 witness: the InvalidSell branch on a fresh ledger, selling a positive
amount of a never-transacted symbol. -/
theorem C4_witness :
    (Ledger.new.sell "AAPL" 1).1 = .error .InvalidSell :=
  (C4_sell_contract Ledger.new "AAPL" 1 (by decide)).2.1 (by decide) (by decide)

/-- C5: over every reachable state, get_purchase_record fails with
NoSymbolHistory exactly when no call on the symbol has succeeded, and
otherwise returns the ordered (call-order) list of the symbol's records,
one per successful call — in particular a populated history even when the
net share count has returned to zero. -/
theorem C5_history_iff_successful_transaction (cs : List Call) (s : String) :
    ((Ledger.new.applyCalls cs).get_purchase_record s =
        .error .NoSymbolHistory ↔ traceRecords Ledger.new cs s = []) ∧
    (traceRecords Ledger.new cs s ≠ [] →
      (Ledger.new.applyCalls cs).get_purchase_record s =
        .ok (traceRecords Ledger.new cs s)) := by
  have hnone := applyCalls_records_none cs Ledger.new s
  have hgetD := applyCalls_records_getD cs Ledger.new s
  have hnew : mapGet Ledger.new.purchase_records s = none := rfl
  rw [hnew] at hnone hgetD
  simp only [eq_self_iff_true, true_and] at hnone
  simp only [Option.getD_none, List.nil_append] at hgetD
  cases hm : mapGet (Ledger.new.applyCalls cs).purchase_records s with
  | none =>
    have htr : traceRecords Ledger.new cs s = [] := hnone.mp hm
    constructor
    · simp [Ledger.get_purchase_record, hm, htr]
    · intro hne
      exact absurd htr hne
  | some l =>
    have hl : l = traceRecords Ledger.new cs s := by
      rw [hm] at hgetD
      simpa using hgetD
    constructor
    · constructor
      · intro he
        simp [Ledger.get_purchase_record, hm] at he
      · intro htr
        have hcontra := hnone.mpr htr
        rw [hm] at hcontra
        cases hcontra
    · intro _
      simp [Ledger.get_purchase_record, hm, hl]

/-- C5 witness: after purchasing 2 shares and selling all 2, the history is
still populated with both records while the share count is back to zero. -/
theorem C5_witness :
    (Ledger.new.applyCalls
        [Call.purchase "IBM" 2, Call.sell "IBM" 2]).get_purchase_record "IBM" =
      .ok [{ date := 0, shares := 2, transaction_type := .Purchase },
           { date := 0, shares := 2, transaction_type := .Sell }] ∧
    (Ledger.new.applyCalls
        [Call.purchase "IBM" 2, Call.sell "IBM" 2]).share_count "IBM" = 0 := by
  have h := (C5_history_iff_successful_transaction
    [Call.purchase "IBM" 2, Call.sell "IBM" 2] "IBM").2 (by decide)
  rw [h]
  exact ⟨by decide, by decide⟩

/-- C6 counterexample: on a fresh ledger a single sell call fails with
InvalidSell — no call has ever succeeded — and yet is_empty already returns
false, refuting the claimed equivalence between emptiness of the holdings
map and the absence of successful calls. -/
theorem C6_counterexample :
    Ledger.new.callOk (Call.sell "AAPL" 1) = false ∧
      (Ledger.new.applyCalls [Call.sell "AAPL" 1]).is_empty = false := by
  decide

/-- C6 (amended): is_empty returns true exactly when the holdings map
contains no symbol; over reachable states this is equivalent to no purchase
or sell call with a nonzero share amount ever having been made, whether it
succeeded or not — a failed nonzero call still materialises a zero-count
holdings entry for its symbol. -/
theorem C6_is_empty_iff (cs : List Call) :
    ((Ledger.new.applyCalls cs).is_empty = true ↔
      (Ledger.new.applyCalls cs).holdings = []) ∧
    ((Ledger.new.applyCalls cs).is_empty = true ↔ ∀ c ∈ cs, c.shares = 0) := by
  have h := applyCalls_holdings_nil_iff cs Ledger.new
  constructor
  · simp [Ledger.is_empty, List.isEmpty_iff]
  · rw [Ledger.is_empty, List.isEmpty_iff, h]
    simp [Ledger.new]

/-- C6 witness: the amended equivalence applied to a single successful
purchase, whose nonzero amount makes the ledger non-empty. -/
theorem C6_witness :
    (Ledger.new.applyCalls [Call.purchase "IBM" 1]).is_empty = false := by
  have h := (C6_is_empty_iff [Call.purchase "IBM" 1]).2
  have h2 : ¬((Ledger.new.applyCalls [Call.purchase "IBM" 1]).is_empty = true) := by
    intro he
    exact absurd (h.mp he (Call.purchase "IBM" 1) (by decide)) (by decide)
  exact Bool.of_not_eq_true h2

/-- C7: selling a positive amount of a symbol absent from the holdings map
fails with InvalidSell but inserts a zero-count holdings entry for it, so
is_empty becomes false while the share count stays 0 and the symbol's
history (hence get_purchase_record's outcome) is unchanged — on a fresh
ledger, still NoSymbolHistory. -/
theorem C7_failed_sell_inserts_zero_entry (p : Ledger) (s : String) (n : Nat)
    (habs : mapGet p.holdings s = none) (hn : n ≠ 0) :
    (p.sell s n).1 = .error .InvalidSell ∧
    mapGet (p.sell s n).2.holdings s = some 0 ∧
    (p.sell s n).2.is_empty = false ∧
    (p.sell s n).2.share_count s = 0 ∧
    (p.sell s n).2.purchase_records = p.purchase_records ∧
    (p.sell s n).2.get_purchase_record s = p.get_purchase_record s := by
  have hcount : p.share_count s = 0 := by simp [Ledger.share_count, habs]
  have hlt : p.share_count s < n := by omega
  rw [show p.sell s n = p.transact s n .Sell from rfl,
    transact_sell_fail p s n hn hlt]
  refine ⟨rfl, ?_, ?_, ?_, rfl, rfl⟩
  · rw [show ({ p with holdings := mapInsert p.holdings s (p.share_count s) } :
        Ledger).holdings = mapInsert p.holdings s (p.share_count s) from rfl,
      hcount, mapGet_mapInsert_self]
  · have hne := mapInsert_ne_nil p.holdings s (p.share_count s)
    simp [Ledger.is_empty, List.isEmpty_iff, hne]
  · rw [show ({ p with holdings := mapInsert p.holdings s (p.share_count s) } :
        Ledger).share_count s =
        (mapGet (mapInsert p.holdings s (p.share_count s)) s).getD 0 from rfl,
      mapGet_mapInsert_self]
    exact hcount

/-- C7 witness: a single failed sell on a fresh ledger flips is_empty to
false while the share count stays 0 and get_purchase_record still fails
with NoSymbolHistory. -/
theorem C7_witness :
    (Ledger.new.sell "IBM" 1).1 = .error .InvalidSell ∧
    mapGet (Ledger.new.sell "IBM" 1).2.holdings "IBM" = some 0 ∧
    (Ledger.new.sell "IBM" 1).2.is_empty = false ∧
    (Ledger.new.sell "IBM" 1).2.share_count "IBM" = 0 ∧
    (Ledger.new.sell "IBM" 1).2.get_purchase_record "IBM" =
      .error .NoSymbolHistory := by
  have h := C7_failed_sell_inserts_zero_entry Ledger.new "IBM" 1 rfl (by decide)
  refine ⟨h.1, h.2.1, h.2.2.1, h.2.2.2.1, ?_⟩
  rw [h.2.2.2.2.2]
  decide

/-- C8: a freshly created ledger is empty and reports a share count of 0 for
every symbol; share_count is total (it never fails) and reports 0 for any
symbol no call ever touched, on every reachable state. -/
theorem C8_new_ledger_properties :
    Ledger.new.is_empty = true ∧
    (∀ s, Ledger.new.share_count s = 0) ∧
    (∀ (cs : List Call) (s : String), (∀ c ∈ cs, c.symbol ≠ s) →
      (Ledger.new.applyCalls cs).share_count s = 0) := by
  refine ⟨rfl, fun s => rfl, fun cs s h => ?_⟩
  rw [applyCalls_count_untouched cs Ledger.new s h]
  rfl

/-- C8 witness: an untouched symbol still reports 0 after other activity. -/
theorem C8_witness :
    (Ledger.new.applyCalls [Call.purchase "IBM" 2]).share_count "AAPL" = 0 :=
  C8_new_ledger_properties.2.2 [Call.purchase "IBM" 2] "AAPL" (by decide)

/-- C9: a successful call on one symbol leaves every other symbol's share
count and history lookup untouched. -/
theorem C9_frame_isolation (p : Ledger) (c : Call) (t : String)
    (ht : c.symbol ≠ t) (_hok : p.callOk c = true) :
    (p.applyCall c).share_count t = p.share_count t ∧
    mapGet (p.applyCall c).purchase_records t = mapGet p.purchase_records t :=
  ⟨applyCall_count_ne p c t ht, applyCall_mapGet_records_ne p c t ht⟩

/-- C9 witness: selling 1 AAPL after buying IBM:1 and AAPL:2 leaves IBM's
history lookup unchanged, and the resulting histories are exactly one
Purchase(1) for IBM and [Purchase(2), Sell(1)] for AAPL, in order. -/
theorem C9_witness :
    mapGet ((Ledger.new.applyCalls
        [Call.purchase "IBM" 1, Call.purchase "AAPL" 2]).applyCall
        (Call.sell "AAPL" 1)).purchase_records "IBM" =
      mapGet (Ledger.new.applyCalls
        [Call.purchase "IBM" 1, Call.purchase "AAPL" 2]).purchase_records "IBM" ∧
    (Ledger.new.applyCalls [Call.purchase "IBM" 1, Call.purchase "AAPL" 2,
        Call.sell "AAPL" 1]).get_purchase_record "IBM" =
      .ok [{ date := 0, shares := 1, transaction_type := .Purchase }] ∧
    (Ledger.new.applyCalls [Call.purchase "IBM" 1, Call.purchase "AAPL" 2,
        Call.sell "AAPL" 1]).get_purchase_record "AAPL" =
      .ok [{ date := 0, shares := 2, transaction_type := .Purchase },
           { date := 0, shares := 1, transaction_type := .Sell }] := by
  refine ⟨(C9_frame_isolation _ (Call.sell "AAPL" 1) "IBM" (by decide)
    (by decide)).2, by decide, by decide⟩

/-- C10: a purchase of a positive u32 amount on a symbol whose current count
is 0 can never fail with InvalidPurchase, since 0 + n cannot exceed the u32
range; the overflow branch needs an already positive count. -/
theorem C10_no_overflow_from_zero (p : Ledger) (s : String) (n : Nat)
    (h0 : p.share_count s = 0) (h1 : 1 ≤ n) (hu : n ≤ U32_MAX) :
    (p.purchase s n).1 ≠ .error .InvalidPurchase := by
  have hn : n ≠ 0 := by omega
  have hovf : p.share_count s + n ≤ U32_MAX := by omega
  rw [show p.purchase s n = p.transact s n .Purchase from rfl,
    transact_purchase_ok p s n hn hovf]
  simp

/-- C10 witness: the first purchase of a symbol cannot hit the overflow
error. -/
theorem C10_witness :
    (Ledger.new.purchase "IBM" 1).1 ≠ .error .InvalidPurchase :=
  C10_no_overflow_from_zero Ledger.new "IBM" 1 rfl (by decide) (by decide)

